import Mathlib

/-!
# Verification of the reactive dependency-tracking core (observer / scheduler)

Shallow embedding of the reactivity core of the repository:
* `src/core/observer/dep.js` (`Dep`: subscriber lists, `depend`, `notify`),
* `src/core/observer/index.js` (`defineReactive`'s `reactiveSetter`, `observe`, `set`),
* `src/core/observer/array.js` (the seven patched array mutators),
* `src/core/observer/watcher.js` (`Watcher`: `addDep`, `cleanupDeps`, `get`,
  `update`, `run`, `evaluate`),
* `src/core/observer/scheduler.js` (`queueWatcher`, `flushSchedulerQueue`,
  `MAX_UPDATE_COUNT`),
* `src/core/instance/state.js` (`createComputedGetter`).

JavaScript machine integers / doubles only occur here as exact integers, and
object identity is modelled with explicit reference ids; `NaN` is an explicit
value constructor, since only its `===`-behaviour matters to the code.
Stateful code is embedded as explicit state passing; the scheduler's
unbounded `for` loop over a growing queue is given explicit fuel.
-/

/-- A JavaScript value as far as the observer core inspects it: an exact
number, `NaN`, `undefined`, or a reference to a composite (object/array)
identified by a reference id. -/
inductive JsVal where
  | num : Int → JsVal
  | nan : JsVal
  | undef : JsVal
  | obj : Nat → JsVal
  deriving DecidableEq, Repr

/-- JavaScript strict equality `===` restricted to `JsVal`: numbers compare by
value, composites by reference identity, and `NaN === x` is always `false`
(including `NaN === NaN`). -/
def strictEq : JsVal → JsVal → Bool
  | .num a, .num b => a = b
  | .undef, .undef => true
  | .obj i, .obj j => i = j
  | _, _ => false

/-- Whether a value is a composite (object/array reference), i.e. the values
`observe` is willing to wrap (`isObject` in the source). -/
def isComposite : JsVal → Bool
  | .obj _ => true
  | _ => false

/-- The change test of `reactiveSetter` in `src/core/observer/index.js`:
`newVal === value || (newVal !== newVal && value !== value)` — identical, or
both `NaN`. -/
def setterUnchanged (newVal value : JsVal) : Bool :=
  strictEq newVal value || (!strictEq newVal newVal && !strictEq value value)

/-- State of one intercepted record member as `defineReactive` maintains it:
the stored value `val`, whether a child observer is currently attached to it
(`childOb = !shallow && observe(val)`), and how many times `dep.notify()` has
fired for this member. -/
structure Member where
  val : JsVal
  childObserved : Bool
  notifyCount : Nat
  deriving DecidableEq, Repr

/-- `observe(v)` succeeds exactly on composite values (plain objects/arrays);
for a member state we only record whether it returned an observer. -/
def observeGives (v : JsVal) : Bool := isComposite v

/-- The write interceptor `reactiveSetter` of `defineReactive`
(`src/core/observer/index.js`), for a plain data member (no user-supplied
getter/setter, not `shallow`): if the new value is identical to the old one
(`NaN` counting as identical to `NaN`) return without any effect; otherwise
store the new value, recompute the child observer via `observe(newVal)`, and
call `dep.notify()`. -/
def reactiveSetter (newVal : JsVal) (m : Member) : Member :=
  if setterUnchanged newVal m.val then m
  else { val := newVal, childObserved := observeGives newVal,
         notifyCount := m.notifyCount + 1 }

/-! ## Array method interception (`src/core/observer/array.js`) -/

/-- One invocation of one of the seven patched mutating array methods,
together with its arguments. `splice` carries the (already clamped) start
index, delete count and inserted items; `sort` is modelled with its resulting
comparator order abstracted into the underlying list operation. -/
inductive MutCall where
  | push (items : List JsVal)
  | pop
  | shift
  | unshift (items : List JsVal)
  | splice (start : Nat) (deleteCount : Nat) (items : List JsVal)
  | sort
  | reverse
  deriving DecidableEq, Repr

/-- Total order used to model `Array.prototype.sort`'s default comparator on
our value type (any fixed total order; the interception layer under
verification only forwards to the cached original method). -/
def jsValKey : JsVal → Nat × Int
  | .num a => (0, a)
  | .nan => (1, 0)
  | .undef => (2, 0)
  | .obj i => (3, (i : Int))

/-- The cached original `Array.prototype` method (`original.apply(this, args)`
in the source): the plain structural mutation of the underlying list. -/
def originalApply : MutCall → List JsVal → List JsVal
  | .push items, l => l ++ items
  | .pop, l => l.dropLast
  | .shift, l => l.drop 1
  | .unshift items, l => items ++ l
  | .splice start deleteCount items, l =>
      l.take start ++ items ++ (l.drop start).drop deleteCount
  | .sort, l => l.insertionSort (fun a b => jsValKey a ≤ jsValKey b)
  | .reverse, l => l.reverse

/-- The `switch (method)` of the patched mutator computing `inserted`:
`push`/`unshift` insert their whole argument list, `splice` inserts
`args.slice(2)`, the other four methods insert nothing. -/
def insertedOf : MutCall → List JsVal
  | .push items => items
  | .unshift items => items
  | .splice _ _ items => items
  | _ => []

/-- State of one observed array: its elements, the set of composite reference
ids that have been made reactive (`observe`d) so far, and how many times the
array's own `ob.dep.notify()` has fired. -/
structure ArrState where
  elems : List JsVal
  wrapped : Finset Nat
  notifyCount : Nat
  deriving DecidableEq

/-- `observe(item)` on one array element: a composite element's reference id
is added to the wrapped set; primitives are refused by `observe`. -/
def observeItem (s : Finset Nat) (v : JsVal) : Finset Nat :=
  match v with
  | .obj i => insert i s
  | _ => s

/-- `Observer.observeArray(items)`: observe every item in order. -/
def observeArray (s : Finset Nat) (items : List JsVal) : Finset Nat :=
  items.foldl observeItem s

/-- The patched `mutator` installed on observed arrays
(`src/core/observer/array.js`): run the cached original method, compute
`inserted` per the `switch`, call `ob.observeArray(inserted)` when there are
inserted items, then call `ob.dep.notify()`. -/
def mutator (c : MutCall) (s : ArrState) : ArrState :=
  let elems := originalApply c s.elems
  let inserted := insertedOf c
  let wrapped := observeArray s.wrapped inserted
  { elems := elems, wrapped := wrapped, notifyCount := s.notifyCount + 1 }

/-- Plain index assignment `seq[i] = v` on an observed array: array elements
are not intercepted per index (the `Observer` constructor only patches the
seven methods and `walk`s object keys), so the element is replaced with no
wrapping and no notification. -/
def indexAssign (i : Nat) (v : JsVal) (s : ArrState) : ArrState :=
  { s with elems := s.elems.set i v }

/-! ## The explicit mutation helper `set` (`src/core/observer/index.js`) -/

/-- The `__ob__` data of an observed target as `set` consults it: the count of
vms using it as root `$data`, and the notification count of the container's
own `Dep`. -/
structure ObState where
  vmCount : Nat
  depNotify : Nat
  deriving DecidableEq, Repr

/-- A property key passed to `set`: either a value for which
`isValidArrayIndex` holds, or any other key. -/
inductive JsKey where
  | idx (i : Nat)
  | str (s : String)
  deriving DecidableEq, Repr

/-- A target of the `set` helper.  `elems` are the array elements (meaningful
when `isArray`), `fields` the own string-keyed properties, `wrapped` the set
of composite reference ids made reactive while handling this target, and
`memberNotify` the total notification count of individual member `Dep`s
(distinct from the container `Dep` counted in `ob`). -/
structure SetTarget where
  isArray : Bool
  elems : List JsVal
  fields : List (JsKey × JsVal)
  isVue : Bool
  ob : Option ObState
  wrapped : Finset Nat
  memberNotify : Nat
  deriving DecidableEq

/-- `key in target` (excluding `Object.prototype` keys, which the model does
not contain): an own property.  Arrays with a valid index key never reach
this test in `set` (the splice branch catches them first), so own keys are
the `fields`. -/
def keyIn (t : SetTarget) (key : JsKey) : Bool :=
  (t.fields.lookup key).isSome

/-- Store an own property value (plain `target[key] = val` at the storage
level). -/
def storeField (t : SetTarget) (key : JsKey) (v : JsVal) : SetTarget :=
  { t with fields := (key, v) :: t.fields.filter (fun p => p.1 ≠ key) }

/-- The helper `set(target, key, val)` of `src/core/observer/index.js`,
returning the new target state and the function's return value:
1. an array target with a valid index `key` is padded to
   `length = max(length, key)` and then `target.splice(key, 1, val)` runs —
   through the patched `splice` (wrap inserted value, notify the container
   `Dep`) when the array is observed;
2. an existing own key is plainly assigned, which lands in the member's
   reactive setter when the target is observed (member `Dep` notification
   when the value changes);
3. a Vue instance or a root-`$data` observed target (`vmCount > 0`) is
   refused with a warning: no mutation, no notification;
4. an unobserved target gets a plain, non-reactive assignment;
5. otherwise `defineReactive(ob.value, key, val)` installs a fresh reactive
   member (observing `val` if composite) and the container `Dep` notifies. -/
def setHelper (t : SetTarget) (key : JsKey) (val : JsVal) : SetTarget × JsVal :=
  match key, t.isArray with
  | .idx i, true =>
      let padded := t.elems ++ List.replicate (i - t.elems.length) .undef
      let spliced := padded.take i ++ [val] ++ (padded.drop i).drop 1
      match t.ob with
      | some o =>
          ({ t with elems := spliced,
                    wrapped := observeArray t.wrapped [val],
                    ob := some { o with depNotify := o.depNotify + 1 } }, val)
      | none => ({ t with elems := spliced }, val)
  | _, _ =>
      if keyIn t key then
        let old := ((t.fields.lookup key).getD .undef)
        let t := storeField t key val
        if t.ob.isSome && !setterUnchanged val old then
          ({ t with memberNotify := t.memberNotify + 1 }, val)
        else (t, val)
      else if t.isVue || (match t.ob with | some o => o.vmCount ≠ 0 | none => false) then
        (t, val)
      else
        match t.ob with
        | none => (storeField t key val, val)
        | some o =>
            ({ storeField t key val with
                wrapped := observeItem t.wrapped val,
                ob := some { o with depNotify := o.depNotify + 1 } }, val)

/-! ## Watcher dependency tracking
(`Watcher.addDep`, `Watcher.cleanupDeps`, `Watcher.get` in
`src/core/observer/watcher.js`, `Dep.addSub`/`Dep.removeSub`/`Dep.depend` in
`src/core/observer/dep.js`)

We track one watcher, identified by `wid`, against the family of all
dependencies, identified by their `Dep.id : Nat`; `subs d` is the subscriber
list of the dependency with id `d` (it may contain other watchers' ids,
which the tracked watcher's operations never touch). -/

/-- The dependency bookkeeping fields of a `Watcher`: the previous
generation (`depIds` / `deps`) and the generation discovered during the
current evaluation (`newDepIds` / `newDeps`). -/
structure WTrack where
  depIds : Finset Nat
  newDepIds : Finset Nat
  deps : List Nat
  newDeps : List Nat

/-- The watcher's tracking state together with every dependency's subscriber
list. -/
structure DepsState where
  w : WTrack
  subs : Nat → List Nat

/-- `Watcher.addDep(dep)` — called by `Dep.depend()` when this watcher is the
active evaluation context: if the dep id is not yet in the new generation,
record it there (ids and ordered list), and subscribe (`dep.addSub(this)`,
an unguarded push) only when the previous generation did not contain it
either. -/
def addDep (wid d : Nat) (s : DepsState) : DepsState :=
  if d ∈ s.w.newDepIds then s
  else
    let w := { s.w with newDepIds := insert d s.w.newDepIds,
                        newDeps := s.w.newDeps ++ [d] }
    if d ∈ s.w.depIds then { s with w := w }
    else { w := w, subs := Function.update s.subs d (s.subs d ++ [wid]) }

/-- The removal loop of `Watcher.cleanupDeps`: walk the previous generation's
dep list from the back (`while (i--)`), and for every dep not touched this
evaluation call `dep.removeSub(this)` (removal of the first occurrence). -/
def removePass (wid : Nat) (newIds : Finset Nat) (subs : Nat → List Nat) :
    List Nat → (Nat → List Nat)
  | [] => subs
  | d :: rest =>
      removePass wid newIds
        (if d ∈ newIds then subs
         else Function.update subs d ((subs d).erase wid)) rest

/-- `Watcher.cleanupDeps()`: unsubscribe from every previous-generation dep
absent from the new generation, then swap the generations and clear the new
one. -/
def cleanupDeps (wid : Nat) (s : DepsState) : DepsState :=
  { w := { depIds := s.w.newDepIds, newDepIds := ∅,
           deps := s.w.newDeps, newDeps := [] },
    subs := removePass wid s.w.newDepIds s.subs s.w.deps.reverse }

/-- One `Watcher.get()` evaluation whose getter reads the reactive members
backed by the dependencies in `reads`, in order (each read fires
`dep.depend()` → `addDep`); afterwards `cleanupDeps` reconciles the
generations. -/
def watcherGetReads (wid : Nat) (reads : List Nat) (s : DepsState) : DepsState :=
  cleanupDeps wid (reads.foldl (fun st d => addDep wid d st) s)

/-- The between-evaluations invariant of the tracking state: the new
generation is empty, the previous generation's list matches its id set
without duplicates, and the watcher sits in exactly the subscriber lists of
its current dependencies, once each. -/
def TrackInv (wid : Nat) (s : DepsState) : Prop :=
  s.w.newDepIds = ∅ ∧ s.w.newDeps = [] ∧
  s.w.deps.Nodup ∧ (∀ d, d ∈ s.w.deps ↔ d ∈ s.w.depIds) ∧
  (∀ d, (s.subs d).count wid = if d ∈ s.w.depIds then 1 else 0)

/-! ## Lazy (computed) watchers
(`Watcher` constructor / `update` / `evaluate` in
`src/core/observer/watcher.js`, `createComputedGetter` in
`src/core/instance/state.js`)

The getter is a function of an environment `σ` (the reactive state it
reads); `getterRuns` counts how often it has been invoked. -/

/-- The value/laziness fields of a `Watcher`: `lazy` and `dirty` flags, the
cached `value` (`none` standing for JavaScript `undefined` before the first
computation), and an instrumentation counter of getter invocations. -/
structure LazyWatcher where
  lazy : Bool
  dirty : Bool
  value : Option Int
  getterRuns : Nat
  deriving DecidableEq, Repr

/-- The tail of the `Watcher` constructor:
`this.dirty = this.lazy` and
`this.value = this.lazy ? undefined : this.get()`. -/
def mkWatcher {σ : Type} (lazy : Bool) (g : σ → Int) (e : σ) : LazyWatcher :=
  { lazy := lazy, dirty := lazy,
    value := if lazy then none else some (g e),
    getterRuns := if lazy then 0 else 1 }

/-- `Watcher.evaluate()` (only called on lazy watchers):
`this.value = this.get(); this.dirty = false`. -/
def watcherEvaluate {σ : Type} (g : σ → Int) (e : σ) (w : LazyWatcher) :
    LazyWatcher :=
  { w with value := some (g e), dirty := false,
           getterRuns := w.getterRuns + 1 }

/-- `Watcher.update()`, the invalidation signal, restricted here to its lazy
branch: a lazy watcher is only marked dirty (no evaluation, no queueing). -/
def lazyUpdate (w : LazyWatcher) : LazyWatcher :=
  if w.lazy then { w with dirty := true } else w

/-- `createComputedGetter`'s `computedGetter` (`src/core/instance/state.js`):
if the watcher is dirty, `watcher.evaluate()`; then return `watcher.value`
(the dependency re-registration on `Dep.target` does not touch the fields
modelled here). -/
def computedRead {σ : Type} (g : σ → Int) (e : σ) (w : LazyWatcher) :
    Option Int × LazyWatcher :=
  let w := if w.dirty then watcherEvaluate g e w else w
  (w.value, w)

/-! ## The scheduler (`src/core/observer/scheduler.js`)

Watchers are identified by their ids.  The domain state `σ` of a "machine"
carries whatever the watchers' `run()` methods read and write; `run id d`
returns the new domain state together with the ids of the watchers whose
dependencies were notified during that run (each notification reaches
`Watcher.update`, which for a non-lazy non-sync watcher calls
`queueWatcher`).  `queueWatcher` itself only touches scheduler state and
`run` only touches domain state, so performing the domain step first and the
queueing afterwards is observationally the interleaving of the source. -/

/-- The module-level mutable state of `scheduler.js`: the pending `queue`
(watcher ids), the presence marker object `has`, the `waiting` and
`flushing` flags, the loop `index`, and — as instrumentation — the order in
which watchers have run during the current flush. -/
structure SchedState where
  queue : List Nat
  has : Finset Nat
  waiting : Bool
  flushing : Bool
  index : Nat
  runLog : List Nat
  deriving DecidableEq

/-- The scheduler state at module load: everything empty, no flush pending. -/
def emptySched : SchedState :=
  { queue := [], has := ∅, waiting := false, flushing := false,
    index := 0, runLog := [] }

/-- `export const MAX_UPDATE_COUNT = 100` — declared in `scheduler.js`
(together with the `circular` counter object) but never consulted by
`flushSchedulerQueue` in this repository. -/
def MAX_UPDATE_COUNT : Nat := 100

/-- The backward scan of `queueWatcher`'s flushing branch:
`let i = queue.length - 1; while (i > index && queue[i].id > watcher.id) i--`
returning the final `i`. -/
def scanPos (queue : List Nat) (index id : Nat) : Nat → Nat
  | 0 => 0
  | i + 1 =>
      if i + 1 > index ∧ queue.getD (i + 1) 0 > id then scanPos queue index id i
      else i + 1

/-- `queue.splice(i + 1, 0, watcher)`: insertion at a position. -/
def insertAt (l : List Nat) (n : Nat) (a : Nat) : List Nat :=
  l.take n ++ a :: l.drop n

/-- `queueWatcher(watcher)`: skip when the id is already marked in `has`;
otherwise mark it and either push to the back (not flushing) or splice into
the id-sorted position after the backward scan (flushing); finally make sure
a flush is scheduled (`waiting`). -/
def queueWatcher (id : Nat) (s : SchedState) : SchedState :=
  if id ∈ s.has then s
  else
    let s := { s with has := insert id s.has }
    let s :=
      if !s.flushing then { s with queue := s.queue ++ [id] }
      else
        { s with queue :=
            insertAt s.queue (scanPos s.queue s.index id (s.queue.length - 1) + 1) id }
    if !s.waiting then { s with waiting := true } else s

/-- Queue a burst of invalidations arriving within one tick (each one a
`dep.notify()` reaching a non-lazy, non-sync watcher's `update`). -/
def queueMany (ids : List Nat) (s : SchedState) : SchedState :=
  ids.foldl (fun st id => queueWatcher id st) s

/-- One iteration of the `for (index = 0; index < queue.length; index++)`
loop of `flushSchedulerQueue`: fetch `queue[index]`, clear its `has` marker,
execute `watcher.run()` (domain effect plus queueing of every watcher id it
notified), then advance `index`. -/
def stepFlush {σ : Type} (run : Nat → σ → σ × List Nat) :
    σ × SchedState → σ × SchedState :=
  fun (d, s) =>
    let id := s.queue.getD s.index 0
    let s := { s with has := s.has.erase id, runLog := s.runLog ++ [id] }
    let (d, notified) := run id d
    let s := notified.foldl (fun st n => queueWatcher n st) s
    (d, { s with index := s.index + 1 })

/-- The flush loop, with explicit fuel: `none` means the fuel ran out with
the loop condition `index < queue.length` still true (the source would keep
iterating). -/
def flushLoop {σ : Type} (run : Nat → σ → σ × List Nat) :
    Nat → σ × SchedState → Option (σ × SchedState)
  | 0, st => if st.2.index < st.2.queue.length then none else some st
  | fuel + 1, st =>
      if st.2.index < st.2.queue.length then
        flushLoop run fuel (stepFlush run st)
      else some st

/-- `resetSchedulerState()`: clear the queue and markers, reset the flags
(`index = queue.length = 0; has = {}; waiting = flushing = false`). -/
def resetSchedulerState (s : SchedState) : SchedState :=
  { s with queue := [], has := ∅, index := 0, waiting := false,
           flushing := false }

/-- `flushSchedulerQueue()`: set `flushing`, sort the queue ascending by id
(`queue.sort((a, b) => a.id - b.id)`), run the growing queue to exhaustion,
then reset the scheduler state.  `none` when the given fuel does not reach
the end of the loop. -/
def flushSchedulerQueue {σ : Type} (run : Nat → σ → σ × List Nat)
    (fuel : Nat) (d : σ) (s : SchedState) : Option (σ × SchedState) :=
  let s := { s with flushing := true,
                    queue := s.queue.insertionSort (· ≤ ·) }
  (flushLoop run fuel (d, s)).map (fun (d, s) => (d, resetSchedulerState s))

/-- The state of `flushSchedulerQueue` just after it sets `flushing` and
sorts the queue, before the loop starts. -/
def startFlush (s : SchedState) : SchedState :=
  { s with flushing := true, queue := s.queue.insertionSort (· ≤ ·) }

/-- The state after (at most) `n` iterations of the flush loop: each
iteration runs only while the loop condition `index < queue.length` holds,
exactly as `flushLoop` steps. -/
def flushIter {σ : Type} (run : Nat → σ → σ × List Nat) :
    Nat → σ × SchedState → σ × SchedState
  | 0, st => st
  | n + 1, st =>
      if st.2.index < st.2.queue.length then flushIter run n (stepFlush run st)
      else st

/-! ### Concrete machines used in the scenarios -/

/-- A machine whose watchers' `run` methods mutate nothing and notify
nobody (`cb` touches no reactive state). -/
def inertRun : Nat → Unit → Unit × List Nat := fun _ u => (u, [])

/-- A machine with a single watcher, id 1, whose `run` re-invalidates its own
dependency (the callback writes the very member the getter reads), so each
run notifies watcher 1 again. -/
def selfRun : Nat → Unit → Unit × List Nat := fun _ u => (u, [1])

/-- A machine with watchers 1 and 2 where running watcher 2 mutates a member
that watcher 1 subscribes to (notifying 1), and watcher 1 notifies nobody. -/
def retriggerRun : Nat → Unit → Unit × List Nat :=
  fun id u => (u, if id = 2 then [1] else [])

/-- The reactive state of the batching scenario: container members `x` and
`y` (both intercepted by `defineReactive`), the watcher's cached `value`,
and the log of callback invocations `(newValue, oldValue)`. -/
structure XYState where
  x : Int
  y : Int
  wValue : Int
  cbLog : List (Int × Int)
  deriving DecidableEq, Repr

/-- `Watcher.run()` for the single watcher (id 1) of the batching scenario,
getter `vm.x + vm.y`: re-evaluate via `get()`, and since the result is a
non-object and the watcher is not `deep`, invoke the callback exactly when
`value !== this.value`, with `(value, oldValue)`; the callback mutates
nothing, so no dependency notifies during the run. -/
def xyRun : Nat → XYState → XYState × List Nat :=
  fun id d =>
    if id = 1 then
      let value := d.x + d.y
      if value ≠ d.wValue then
        ({ d with wValue := value, cbLog := d.cbLog ++ [(value, d.wValue)] }, [])
      else (d, [])
    else (d, [])

/-- Writing member `x` through its `reactiveSetter`: identical values return
without effect; otherwise store and `dep.notify()`, whose subscriber list
holds exactly watcher 1 (collected when the watcher's constructor evaluated
the getter), so `Watcher.update` runs and — non-lazy, non-sync — calls
`queueWatcher`. -/
def writeX (v : Int) : XYState × SchedState → XYState × SchedState :=
  fun (d, s) => if v = d.x then (d, s) else ({ d with x := v }, queueWatcher 1 s)

/-- Writing member `y`; same shape as `writeX`. -/
def writeY (v : Int) : XYState × SchedState → XYState × SchedState :=
  fun (d, s) => if v = d.y then (d, s) else ({ d with y := v }, queueWatcher 1 s)

/-- The batching scenario's initial state: `{x: 1, y: 1}`, the watcher
constructed non-lazy so its value is the getter's result `1 + 1 = 2`, no
callback invocations yet, scheduler idle. -/
def xyInit : XYState × SchedState :=
  ({ x := 1, y := 1, wValue := 1 + 1, cbLog := [] }, emptySched)

/-- The scheduler state reached at step `n` of the flush of the
self-re-triggering scenario: the queue holds `n + 1` copies of watcher 1's
id, `n` of them already processed, and the watcher has already run `n`
times. -/
def selfState (n : Nat) : SchedState :=
  { queue := List.replicate (n + 1) 1, has := {1}, waiting := true,
    flushing := true, index := n, runLog := List.replicate n 1 }

/-- Mid-evaluation invariant of the dependency-tracking state (holds between
any two `addDep` calls of one `Watcher.get`): the new generation's list
matches its id set without duplicates, the previous generation is untouched,
and the watcher sits once in exactly the subscriber lists of the deps of
either generation. -/
def MidInv (wid : Nat) (s : DepsState) : Prop :=
  s.w.newDeps.Nodup ∧ (∀ d, d ∈ s.w.newDeps ↔ d ∈ s.w.newDepIds) ∧
  s.w.deps.Nodup ∧ (∀ d, d ∈ s.w.deps ↔ d ∈ s.w.depIds) ∧
  (∀ d, (s.subs d).count wid =
    if d ∈ s.w.depIds ∨ d ∈ s.w.newDepIds then 1 else 0)

/-- A fresh tracking state: a just-constructed watcher (before its first
evaluation) and empty subscriber lists. -/
def freshDeps : DepsState :=
  { w := { depIds := ∅, newDepIds := ∅, deps := [], newDeps := [] },
    subs := fun _ => [] }

/-- Invariant of the scheduler state at the iteration boundaries of the
flush loop: the not-yet-processed part of the queue (from `index` on) has no
duplicate id, and each of its ids is still marked in `has`. -/
def PendingInv (s : SchedState) : Prop :=
  (s.queue.drop s.index).Nodup ∧ ∀ m ∈ s.queue.drop s.index, m ∈ s.has

/-- Invariant of the scheduler state while `watcher.run()` of the entry at
`index` executes (between the `queueWatcher` calls its notifications
trigger): the strictly-unprocessed part (beyond `index`) has no duplicate
id, its ids are marked in `has`, and `index` is in range. -/
def QInv (s : SchedState) : Prop :=
  (s.queue.drop (s.index + 1)).Nodup ∧
  (∀ m ∈ s.queue.drop (s.index + 1), m ∈ s.has) ∧
  s.index < s.queue.length

/-- A root-data array target of `set`: an observed array (`vmCount = 1`,
i.e. currently used as a component's root state) with one element. -/
def arrRootTarget : SetTarget :=
  { isArray := true, elems := [.num 1], fields := [], isVue := false,
    ob := some { vmCount := 1, depNotify := 0 }, wrapped := ∅,
    memberNotify := 0 }

/-- A root-data record target of `set`: an observed plain object
(`vmCount = 1`) with no own fields. -/
def recRootTarget : SetTarget :=
  { isArray := false, elems := [], fields := [], isVue := false,
    ob := some { vmCount := 1, depNotify := 0 }, wrapped := ∅,
    memberNotify := 0 }

/-- Start state of the flush in the mid-flush re-queueing scenario:
watchers 1 and 2 invalidated in the same tick, flush begun. -/
def c4Start : SchedState := startFlush (queueMany [1, 2] emptySched)

/-! # Theorems -/

/-- On this value model, the setter's change test (`===`, with the two-sided
`NaN` check) is exactly value identity. -/
theorem setterUnchanged_iff (a b : JsVal) : setterUnchanged a b = true ↔ a = b := by
  cases a <;> cases b <;>
    simp [setterUnchanged, strictEq]

/-- C7: writing a value identical to the current one (`NaN` counting as
identical to `NaN`) changes no state and triggers no notification; writing a
different value stores it, attaches a child observer exactly when the new
value is a composite, and notifies the member's `Dep` exactly once. -/
theorem reactive_setter_identity_guard (v : JsVal) (m : Member) :
    (v = m.val → reactiveSetter v m = m) ∧
    (v ≠ m.val →
      (reactiveSetter v m).val = v ∧
      (reactiveSetter v m).childObserved = isComposite v ∧
      (reactiveSetter v m).notifyCount = m.notifyCount + 1) := by
  constructor
  · intro h
    have : setterUnchanged v m.val = true := (setterUnchanged_iff v m.val).2 h
    simp [reactiveSetter, this]
  · intro h
    have : setterUnchanged v m.val = false := by
      cases hb : setterUnchanged v m.val
      · rfl
      · exact absurd ((setterUnchanged_iff v m.val).1 hb) h
    simp [reactiveSetter, this, observeGives]

theorem reactive_setter_identity_guard_w :
    reactiveSetter .nan { val := .nan, childObserved := false, notifyCount := 0 } =
      { val := .nan, childObserved := false, notifyCount := 0 } ∧
    (reactiveSetter (.obj 3)
      { val := .num 1, childObserved := false, notifyCount := 0 }).notifyCount = 1 :=
  ⟨(reactive_setter_identity_guard .nan
      { val := .nan, childObserved := false, notifyCount := 0 }).1 rfl,
   ((reactive_setter_identity_guard (.obj 3)
      { val := .num 1, childObserved := false, notifyCount := 0 }).2 (by decide)).2.2⟩

/-- Membership in the wrapped set after `observeArray`. -/
theorem mem_observeArray (items : List JsVal) (s : Finset Nat) (i : Nat) :
    i ∈ observeArray s items ↔ i ∈ s ∨ JsVal.obj i ∈ items := by
  induction items generalizing s with
  | nil => simp [observeArray]
  | cons v rest ih =>
      have : observeArray s (v :: rest) = observeArray (observeItem s v) rest := rfl
      rw [this, ih]
      cases v with
      | obj j => simp only [observeItem, Finset.mem_insert, List.mem_cons,
          JsVal.obj.injEq]; tauto
      | num a => simp [observeItem]
      | nan => simp [observeItem]
      | undef => simp [observeItem]

/-- C9: each of the seven intercepted mutators performs the underlying
mutation (delegation to the cached original method), wraps every
newly-inserted composite element, and notifies the sequence's own `Dep`
exactly once; plain index assignment notifies nothing and wraps nothing. -/
theorem array_interception_notify_once (c : MutCall) (s : ArrState) :
    (mutator c s).elems = originalApply c s.elems ∧
    (mutator c s).notifyCount = s.notifyCount + 1 ∧
    (∀ i, JsVal.obj i ∈ insertedOf c → i ∈ (mutator c s).wrapped) ∧
    (∀ i v, (indexAssign i v s).notifyCount = s.notifyCount ∧
      (indexAssign i v s).wrapped = s.wrapped) := by
  refine ⟨rfl, rfl, ?_, fun i v => ⟨rfl, rfl⟩⟩
  intro i h
  show i ∈ observeArray s.wrapped (insertedOf c)
  exact (mem_observeArray _ _ _).2 (Or.inr h)

theorem array_interception_notify_once_w :
    (mutator (.push [.obj 5]) { elems := [], wrapped := ∅, notifyCount := 0 }).notifyCount = 1 ∧
    5 ∈ (mutator (.push [.obj 5]) { elems := [], wrapped := ∅, notifyCount := 0 }).wrapped :=
  ⟨(array_interception_notify_once (.push [.obj 5])
      { elems := [], wrapped := ∅, notifyCount := 0 }).2.1,
   (array_interception_notify_once (.push [.obj 5])
      { elems := [], wrapped := ∅, notifyCount := 0 }).2.2.1 5 (by decide)⟩

/-- C8: a lazy watcher does not run its getter at construction
(`value = undefined`, zero getter runs); the first read computes the value;
a second read — even with changed upstream state — returns the cached value
without re-running the getter; an upstream notification only marks the
watcher dirty (no evaluation), and the next read then recomputes. -/
theorem lazy_watcher_lifecycle {σ : Type} (g : σ → Int) (e1 e2 e3 : σ) :
    (mkWatcher true g e1).getterRuns = 0 ∧
    (mkWatcher true g e1).value = none ∧
    (computedRead g e1 (mkWatcher true g e1)).1 = some (g e1) ∧
    (computedRead g e1 (mkWatcher true g e1)).2.getterRuns = 1 ∧
    (computedRead g e2 (computedRead g e1 (mkWatcher true g e1)).2).1 = some (g e1) ∧
    (computedRead g e2 (computedRead g e1 (mkWatcher true g e1)).2).2.getterRuns = 1 ∧
    (lazyUpdate (computedRead g e1 (mkWatcher true g e1)).2).dirty = true ∧
    (lazyUpdate (computedRead g e1 (mkWatcher true g e1)).2).getterRuns = 1 ∧
    (lazyUpdate (computedRead g e1 (mkWatcher true g e1)).2).value = some (g e1) ∧
    (computedRead g e3 (lazyUpdate (computedRead g e1 (mkWatcher true g e1)).2)).1 =
      some (g e3) ∧
    (computedRead g e3 (lazyUpdate (computedRead g e1 (mkWatcher true g e1)).2)).2.getterRuns
      = 2 := by
  simp [mkWatcher, computedRead, watcherEvaluate, lazyUpdate]

/-- C10 counterexample: the explicit helper `set` on an observed **array**
used as root state (`vmCount = 1`), with the not-yet-present valid index 3,
takes the splice branch before the root-data guard: it mutates the elements
and notifies the container's `Dep` — contradicting the claim that such a
call leaves the target unchanged and notifies nothing. -/
theorem set_root_counterexample :
    arrRootTarget.ob = some { vmCount := 1, depNotify := 0 } ∧
    arrRootTarget.elems.length ≤ 3 ∧
    keyIn arrRootTarget (.idx 3) = false ∧
    (setHelper arrRootTarget (.idx 3) (.num 7)).1.elems =
      [.num 1, .undef, .undef, .num 7] ∧
    (setHelper arrRootTarget (.idx 3) (.num 7)).1.ob =
      some { vmCount := 1, depNotify := 1 } := by
  exact ⟨rfl, by decide, rfl, rfl, rfl⟩

/-- C10 amended: for a non-array target (or a key that is no valid array
index), `set(target, key, value)` with a key not already present, on a Vue
instance or an observed target with `vmCount > 0`, returns the value and
leaves the whole target state unchanged — no mutation, no notification. -/
theorem set_refuses_vue_or_root_target (t : SetTarget) (key : JsKey) (v : JsVal)
    (harr : t.isArray = false ∨ ∀ i, key ≠ .idx i)
    (hnew : keyIn t key = false)
    (hguard : t.isVue = true ∨ ∃ o, t.ob = some o ∧ o.vmCount ≠ 0) :
    setHelper t key v = (t, v) := by
  have hbody :
      (if keyIn t key then
        let old := ((t.fields.lookup key).getD .undef)
        let t' := storeField t key v
        if t'.ob.isSome && !setterUnchanged v old then
          ({ t' with memberNotify := t'.memberNotify + 1 }, v)
        else (t', v)
      else if t.isVue || (match t.ob with | some o => o.vmCount ≠ 0 | none => false) then
        (t, v)
      else
        match t.ob with
        | none => (storeField t key v, v)
        | some o =>
            ({ storeField t key v with
                wrapped := observeItem t.wrapped v,
                ob := some { o with depNotify := o.depNotify + 1 } }, v)) = (t, v) := by
    rw [hnew]
    have hg : (t.isVue ||
        (match t.ob with | some o => decide (o.vmCount ≠ 0) | none => false)) = true := by
      rcases hguard with h | ⟨o, ho, hvm⟩
      · simp [h]
      · rw [ho]; simp [hvm]
    simp only [Bool.false_eq_true, if_false, hg, if_true]
  rcases key with i | str
  · rcases harr with h | h
    · show setHelper t (.idx i) v = (t, v)
      unfold setHelper
      rw [h]
      exact hbody
    · exact absurd rfl (h i)
  · show setHelper t (.str str) v = (t, v)
    unfold setHelper
    cases t.isArray <;> exact hbody

theorem set_refuses_vue_or_root_target_w :
    setHelper recRootTarget (.str "a") (.num 5) = (recRootTarget, .num 5) :=
  set_refuses_vue_or_root_target recRootTarget (.str "a") (.num 5)
    (Or.inl rfl) rfl
    (Or.inr ⟨{ vmCount := 1, depNotify := 0 }, rfl, by decide⟩)

/-- A watcher between evaluations satisfies the mid-evaluation invariant. -/
theorem trackInv_midInv (wid : Nat) (s : DepsState) (h : TrackInv wid s) :
    MidInv wid s := by
  obtain ⟨h1, h2, h3, h4, h5⟩ := h
  refine ⟨by rw [h2]; exact List.nodup_nil, ?_, h3, h4, ?_⟩
  · intro d; rw [h2, h1]; simp
  · intro d; rw [h1]; simpa using h5 d

/-- `Watcher.addDep` preserves the mid-evaluation invariant, never touches
the previous generation, and grows the new id set by the added id. -/
theorem addDep_midInv (wid d : Nat) (s : DepsState) (h : MidInv wid s) :
    MidInv wid (addDep wid d s) ∧
    (addDep wid d s).w.depIds = s.w.depIds ∧
    (addDep wid d s).w.deps = s.w.deps ∧
    (addDep wid d s).w.newDepIds = insert d s.w.newDepIds := by
  obtain ⟨h1, h2, h3, h4, h5⟩ := h
  by_cases hd : d ∈ s.w.newDepIds
  · rw [addDep, if_pos hd]
    exact ⟨⟨h1, h2, h3, h4, h5⟩, rfl, rfl, (Finset.insert_eq_self.2 hd).symm⟩
  · have hnodup : (s.w.newDeps ++ [d]).Nodup := by
      rw [List.nodup_append]
      refine ⟨h1, List.nodup_singleton d, ?_⟩
      intro x hx hxd
      rw [List.mem_singleton] at hxd
      exact hd (hxd ▸ (h2 x).1 hx)
    have hiff : ∀ x, x ∈ s.w.newDeps ++ [d] ↔ x ∈ insert d s.w.newDepIds := by
      intro x
      simp [Finset.mem_insert, h2 x, or_comm]
    by_cases hd2 : d ∈ s.w.depIds
    · rw [addDep, if_neg hd, if_pos hd2]
      refine ⟨⟨hnodup, hiff, h3, h4, ?_⟩, rfl, rfl, rfl⟩
      intro x
      by_cases hx : x = d
      · subst hx
        rw [h5 x, if_pos (Or.inl hd2), if_pos (Or.inl hd2)]
      · rw [h5 x]
        simp only [Finset.mem_insert, hx, false_or]
    · rw [addDep, if_neg hd, if_neg hd2]
      refine ⟨⟨hnodup, hiff, h3, h4, ?_⟩, rfl, rfl, rfl⟩
      intro x
      dsimp only
      by_cases hx : x = d
      · subst hx
        rw [Function.update_same, List.count_append, h5 x,
          if_neg (by simp [hd, hd2])]
        simp
      · rw [Function.update_noteq hx, h5 x]
        simp only [Finset.mem_insert, hx, false_or]

/-- Folding a sequence of member reads through `addDep` keeps the
mid-evaluation invariant, keeps the previous generation, and extends the new
generation by exactly the ids read. -/
theorem foldl_addDep_spec (wid : Nat) (reads : List Nat) (s : DepsState)
    (h : MidInv wid s) :
    MidInv wid (reads.foldl (fun st d => addDep wid d st) s) ∧
    (reads.foldl (fun st d => addDep wid d st) s).w.depIds = s.w.depIds ∧
    (reads.foldl (fun st d => addDep wid d st) s).w.deps = s.w.deps ∧
    (reads.foldl (fun st d => addDep wid d st) s).w.newDepIds =
      s.w.newDepIds ∪ reads.toFinset := by
  induction reads generalizing s with
  | nil => exact ⟨h, rfl, rfl, by simp⟩
  | cons r rest ih =>
      obtain ⟨hm, hdep, hdeps, hnew⟩ := addDep_midInv wid r s h
      obtain ⟨m2, d2, ds2, n2⟩ := ih (addDep wid r s) hm
      refine ⟨m2, ?_, ?_, ?_⟩
      · show (rest.foldl (fun st d => addDep wid d st) (addDep wid r s)).w.depIds = _
        rw [d2, hdep]
      · show (rest.foldl (fun st d => addDep wid d st) (addDep wid r s)).w.deps = _
        rw [ds2, hdeps]
      · show (rest.foldl (fun st d => addDep wid d st) (addDep wid r s)).w.newDepIds = _
        rw [n2, hnew, List.toFinset_cons, Finset.insert_union, Finset.union_insert]

/-- Pointwise effect of the removal loop of `cleanupDeps` on a duplicate-free
dep list: exactly the deps of the list missing from the new generation lose
(one occurrence of) the watcher. -/
theorem removePass_apply (wid : Nat) (newIds : Finset Nat) :
    ∀ (ds : List Nat) (subs : Nat → List Nat), ds.Nodup → ∀ d,
      removePass wid newIds subs ds d =
        if d ∈ ds ∧ d ∉ newIds then (subs d).erase wid else subs d := by
  intro ds
  induction ds with
  | nil => intro subs _ d; simp [removePass]
  | cons x rest ih =>
      intro subs hnd d
      have hx : x ∉ rest := (List.nodup_cons.1 hnd).1
      have hrest : rest.Nodup := (List.nodup_cons.1 hnd).2
      show removePass wid newIds
        (if x ∈ newIds then subs else Function.update subs x ((subs x).erase wid))
        rest d = _
      rw [ih _ hrest d]
      by_cases hdx : d = x
      · subst hdx
        rw [if_neg (by simp [hx])]
        by_cases hdn : d ∈ newIds
        · rw [if_pos hdn, if_neg (by simp [hdn])]
        · rw [if_neg hdn, Function.update_same, if_pos ⟨by simp, hdn⟩]
      · have hsub : (if x ∈ newIds then subs
            else Function.update subs x ((subs x).erase wid)) d = subs d := by
          by_cases hxn : x ∈ newIds
          · rw [if_pos hxn]
          · rw [if_neg hxn, Function.update_noteq hdx]
        rw [hsub]
        by_cases hdr : d ∈ rest ∧ d ∉ newIds
        · rw [if_pos hdr, if_pos ⟨List.mem_cons_of_mem x hdr.1, hdr.2⟩]
        · rw [if_neg hdr, if_neg (by simp only [List.mem_cons] at *; tauto)]

/-- `cleanupDeps` turns the mid-evaluation invariant back into the
between-evaluations invariant, with the new generation become current and
the watcher subscribed exactly to its deps. -/
theorem cleanupDeps_spec (wid : Nat) (s : DepsState) (h : MidInv wid s) :
    TrackInv wid (cleanupDeps wid s) ∧
    (cleanupDeps wid s).w.depIds = s.w.newDepIds ∧
    (∀ d, ((cleanupDeps wid s).subs d).count wid =
      if d ∈ s.w.newDepIds then 1 else 0) := by
  obtain ⟨h1, h2, h3, h4, h5⟩ := h
  have hrev : s.w.deps.reverse.Nodup := by simpa using h3
  have hcount : ∀ d, ((cleanupDeps wid s).subs d).count wid =
      if d ∈ s.w.newDepIds then 1 else 0 := by
    intro d
    show (removePass wid s.w.newDepIds s.subs s.w.deps.reverse d).count wid = _
    rw [removePass_apply wid _ _ _ hrev d]
    by_cases hdn : d ∈ s.w.newDepIds
    · rw [if_neg (by simp [hdn]), h5 d, if_pos (Or.inr hdn), if_pos hdn]
    · by_cases hdd : d ∈ s.w.depIds
      · have hin : d ∈ s.w.deps.reverse := by simpa using (h4 d).2 hdd
        rw [if_pos ⟨hin, hdn⟩, List.count_erase_self, h5 d, if_pos (Or.inl hdd),
          if_neg hdn]
      · have hnin : d ∉ s.w.deps.reverse := by
          simp only [List.mem_reverse]
          exact fun hh => hdd ((h4 d).1 hh)
        rw [if_neg (by tauto), h5 d, if_neg (by tauto), if_neg hdn]
  exact ⟨⟨rfl, rfl, h1, h2, hcount⟩, rfl, hcount⟩

/-- One full `Watcher.get` evaluation, from a consistent state: afterwards
the dependency set is exactly the set of deps read, and the watcher sits in
exactly the subscriber lists of the deps read, once each. -/
theorem watcherGetReads_spec (wid : Nat) (reads : List Nat) (s : DepsState)
    (h : TrackInv wid s) :
    TrackInv wid (watcherGetReads wid reads s) ∧
    (watcherGetReads wid reads s).w.depIds = reads.toFinset ∧
    (∀ d, ((watcherGetReads wid reads s).subs d).count wid =
      if d ∈ reads then 1 else 0) := by
  obtain ⟨hmid, _, _, hnew⟩ := foldl_addDep_spec wid reads s (trackInv_midInv wid s h)
  have hnew' : (reads.foldl (fun st d => addDep wid d st) s).w.newDepIds =
      reads.toFinset := by
    rw [hnew, h.1, Finset.empty_union]
  obtain ⟨ht, hdep, hcnt⟩ := cleanupDeps_spec wid _ hmid
  refine ⟨ht, ?_, ?_⟩
  · show (cleanupDeps wid _).w.depIds = _
    rw [hdep, hnew']
  · intro d
    have hc := hcnt d
    rw [hnew'] at hc
    show ((cleanupDeps wid _).subs d).count wid = _
    rw [hc]
    simp [List.mem_toFinset]

/-- C5: reading the member backed by a dependency any number N ≥ 1 of times
during a single evaluation leaves the watcher subscribed exactly once on
that dependency; and at every moment — mid-evaluation included — the watcher
appears at most once in any dependency's subscriber list. -/
theorem subscriber_at_most_once (wid : Nat) (reads : List Nat) (s : DepsState)
    (h : TrackInv wid s) :
    (∀ d ∈ reads, ((watcherGetReads wid reads s).subs d).count wid = 1) ∧
    (∀ d, ((watcherGetReads wid reads s).subs d).count wid ≤ 1) ∧
    (∀ n d,
      (((reads.take n).foldl (fun st r => addDep wid r st) s).subs d).count wid
        ≤ 1) := by
  obtain ⟨_, _, hcnt⟩ := watcherGetReads_spec wid reads s h
  refine ⟨fun d hd => by rw [hcnt d, if_pos hd], fun d => ?_, fun n d => ?_⟩
  · rw [hcnt d]
    split <;> simp
  · obtain ⟨⟨_, _, _, _, h5⟩, _, _, _⟩ :=
      foldl_addDep_spec wid (reads.take n) s (trackInv_midInv wid s h)
    rw [h5 d]
    split <;> simp

theorem subscriber_at_most_once_w :
    ((watcherGetReads 7 [4, 4, 4] freshDeps).subs 4).count 7 = 1 :=
  (subscriber_at_most_once 7 [4, 4, 4] freshDeps
    ⟨rfl, rfl, List.nodup_nil, by simp [freshDeps], by simp [freshDeps]⟩).1
    4 (by simp)

/-- C6: if an evaluation reads only dependency A and the next evaluation
reads only dependency B (with A ≠ B), afterwards the watcher is no longer in
A's subscriber list, is in B's, and its current dependency set is exactly
the dependencies of the second evaluation. -/
theorem dependency_pruning (wid A B : Nat) (s : DepsState) (h : TrackInv wid s)
    (hAB : A ≠ B) :
    wid ∉ (watcherGetReads wid [B] (watcherGetReads wid [A] s)).subs A ∧
    wid ∈ (watcherGetReads wid [B] (watcherGetReads wid [A] s)).subs B ∧
    (watcherGetReads wid [B] (watcherGetReads wid [A] s)).w.depIds = {B} := by
  obtain ⟨h1, _, _⟩ := watcherGetReads_spec wid [A] s h
  obtain ⟨_, hdep, hcnt⟩ := watcherGetReads_spec wid [B] _ h1
  refine ⟨?_, ?_, by rw [hdep]; simp⟩
  · have hc := hcnt A
    rw [if_neg (by simp [hAB])] at hc
    intro hmem
    rw [← List.count_pos_iff, hc] at hmem
    exact Nat.lt_irrefl 0 hmem
  · have hc := hcnt B
    rw [if_pos (by simp)] at hc
    rw [← List.count_pos_iff, hc]
    exact Nat.zero_lt_one

theorem dependency_pruning_w :
    7 ∉ (watcherGetReads 7 [3] (watcherGetReads 7 [2] freshDeps)).subs 2 ∧
    7 ∈ (watcherGetReads 7 [3] (watcherGetReads 7 [2] freshDeps)).subs 3 :=
  ⟨(dependency_pruning 7 2 3 freshDeps
      ⟨rfl, rfl, List.nodup_nil, by simp [freshDeps], by simp [freshDeps]⟩
      (by decide)).1,
   (dependency_pruning 7 2 3 freshDeps
      ⟨rfl, rfl, List.nodup_nil, by simp [freshDeps], by simp [freshDeps]⟩
      (by decide)).2.1⟩

/-- C2: on a container `{x: 1, y: 1}` with one non-lazy, non-sync watcher
over `x + y`, the two synchronous writes `x = 2; y = 2` within one tick
produce, in the following flush, exactly one callback invocation, with new
value 4 and old value 2 — the second write is deduplicated by `queueWatcher`
and the flush runs the watcher once. -/
theorem batching_single_callback :
    (flushSchedulerQueue xyRun 2 (writeY 2 (writeX 2 xyInit)).1
        (writeY 2 (writeX 2 xyInit)).2).map (fun p => p.1.cbLog) =
      some [(4, 2)] ∧
    (writeY 2 (writeX 2 xyInit)).2.queue = [1] := by
  constructor <;> rfl

/-- Closed form of `queueWatcher`: skip when marked, otherwise mark, place
(append when idle, sorted splice when flushing), and ensure `waiting`. -/
theorem queueWatcher_eq (id : Nat) (s : SchedState) :
    queueWatcher id s =
      if id ∈ s.has then s
      else
        { s with
          has := insert id s.has,
          queue :=
            if s.flushing then
              insertAt s.queue
                (scanPos s.queue s.index id (s.queue.length - 1) + 1) id
            else s.queue ++ [id],
          waiting := true } := by
  rw [queueWatcher]
  by_cases hid : id ∈ s.has
  · rw [if_pos hid, if_pos hid]
  · rw [if_neg hid, if_neg hid]
    cases hf : s.flushing <;> cases hw : s.waiting <;>
      simp [hf, hw]

/-- While the scheduler is idle (`flushing = false`), `queueWatcher` keeps
the queue duplicate-free and aligned with the `has` markers, only ever
appending the new id; `index` and `runLog` are untouched. -/
theorem queueWatcher_idle_spec (id : Nat) (s : SchedState)
    (hf : s.flushing = false) (hn : s.queue.Nodup)
    (hh : ∀ a, a ∈ s.queue ↔ a ∈ s.has) :
    (queueWatcher id s).flushing = false ∧
    (queueWatcher id s).queue.Nodup ∧
    (∀ a, a ∈ (queueWatcher id s).queue ↔ a ∈ (queueWatcher id s).has) ∧
    (∀ a, a ∈ (queueWatcher id s).queue ↔ a ∈ s.queue ∨ a = id) ∧
    (queueWatcher id s).index = s.index ∧
    (queueWatcher id s).runLog = s.runLog := by
  have heq : queueWatcher id s =
      if id ∈ s.has then s
      else { s with has := insert id s.has, queue := s.queue ++ [id],
                    waiting := true } := by
    rw [queueWatcher_eq, hf]
    simp only [Bool.false_eq_true, if_false]
  rw [heq]
  by_cases hid : id ∈ s.has
  · rw [if_pos hid]
    refine ⟨hf, hn, hh, fun a => ⟨fun h => Or.inl h, fun h => ?_⟩, rfl, rfl⟩
    rcases h with h | h
    · exact h
    · exact (hh a).2 (h ▸ hid)
  · rw [if_neg hid]
    refine ⟨hf, ?_, ?_, ?_, rfl, rfl⟩
    · rw [List.nodup_append]
      refine ⟨hn, List.nodup_singleton id, ?_⟩
      intro a ha hax
      rw [List.mem_singleton] at hax
      exact hid (hax ▸ ((hh a).1 ha))
    · intro a
      simp only [List.mem_append, List.mem_singleton, Finset.mem_insert, hh a]
      tauto
    · intro a
      simp only [List.mem_append, List.mem_singleton]

/-- Queueing a burst of invalidations from an idle scheduler: the queue is
duplicate-free, matches the `has` markers, and holds exactly the ids of the
burst (plus whatever was queued before); `index` and `runLog` stay. -/
theorem queueMany_spec (ids : List Nat) :
    ∀ (s : SchedState), s.flushing = false → s.queue.Nodup →
      (∀ a, a ∈ s.queue ↔ a ∈ s.has) →
      (queueMany ids s).flushing = false ∧
      (queueMany ids s).queue.Nodup ∧
      (∀ a, a ∈ (queueMany ids s).queue ↔ a ∈ (queueMany ids s).has) ∧
      (∀ a, a ∈ (queueMany ids s).queue ↔ a ∈ s.queue ∨ a ∈ ids) ∧
      (queueMany ids s).index = s.index ∧
      (queueMany ids s).runLog = s.runLog := by
  induction ids with
  | nil =>
      intro s hf hn hh
      refine ⟨hf, hn, hh, fun a => ?_, rfl, rfl⟩
      show a ∈ s.queue ↔ a ∈ s.queue ∨ a ∈ ([] : List Nat)
      simp
  | cons x rest ih =>
      intro s hf hn hh
      obtain ⟨hf1, hn1, hh1, hm1, hi1, hl1⟩ := queueWatcher_idle_spec x s hf hn hh
      obtain ⟨hf2, hn2, hh2, hm2, hi2, hl2⟩ := ih (queueWatcher x s) hf1 hn1 hh1
      refine ⟨hf2, hn2, hh2, ?_, ?_, ?_⟩
      · intro a
        show a ∈ (queueMany rest (queueWatcher x s)).queue ↔ _
        rw [hm2 a, hm1 a]
        simp only [List.mem_cons]
        tauto
      · show (queueMany rest (queueWatcher x s)).index = s.index
        rw [hi2, hi1]
      · show (queueMany rest (queueWatcher x s)).runLog = s.runLog
        rw [hl2, hl1]

/-- Flushing with watchers that notify nobody: the loop terminates within
`queue.length - index` steps, runs exactly the not-yet-processed queue
entries in order, and never changes the queue. -/
theorem flushLoop_inert (fuel : Nat) :
    ∀ (s : SchedState), s.queue.length - s.index ≤ fuel →
      ∃ t, flushLoop inertRun fuel ((), s) = some ((), t) ∧
        t.runLog = s.runLog ++ s.queue.drop s.index ∧ t.queue = s.queue := by
  induction fuel with
  | zero =>
      intro s h
      have hc : ¬ s.index < s.queue.length := by omega
      refine ⟨s, by rw [flushLoop, if_neg hc], ?_, rfl⟩
      rw [List.drop_eq_nil_of_le (by omega), List.append_nil]
  | succ fuel ih =>
      intro s h
      by_cases hc : s.index < s.queue.length
      · have hstep : stepFlush inertRun ((), s) = ((),
            { s with has := s.has.erase (s.queue.getD s.index 0),
                     runLog := s.runLog ++ [s.queue.getD s.index 0],
                     index := s.index + 1 }) := rfl
        obtain ⟨t, h1, h2, h3⟩ := ih
          { s with has := s.has.erase (s.queue.getD s.index 0),
                   runLog := s.runLog ++ [s.queue.getD s.index 0],
                   index := s.index + 1 } (by simp; omega)
        refine ⟨t, ?_, ?_, h3⟩
        · rw [flushLoop, if_pos hc, hstep]
          exact h1
        · rw [h2]
          simp only [List.append_assoc, List.singleton_append]
          congr 1
          rw [List.getD_eq_getElem s.queue 0 hc, ← List.drop_eq_getElem_cons hc]
      · refine ⟨s, by rw [flushLoop, if_neg hc], ?_, rfl⟩
        rw [List.drop_eq_nil_of_le (by omega), List.append_nil]

/-- In a strictly sorted list, positional order coincides with value
order. -/
theorem sorted_indexOf_lt_iff (l : List Nat) (hs : l.Sorted (· < ·))
    (A B : Nat) (hA : A ∈ l) (hB : B ∈ l) :
    (l.indexOf A < l.indexOf B ↔ A < B) := by
  have hAl : l.indexOf A < l.length := List.indexOf_lt_length.2 hA
  have hBl : l.indexOf B < l.length := List.indexOf_lt_length.2 hB
  have hgA : l.get ⟨l.indexOf A, hAl⟩ = A := List.indexOf_get hAl
  have hgB : l.get ⟨l.indexOf B, hBl⟩ = B := List.indexOf_get hBl
  constructor
  · intro h
    have hr := List.Sorted.rel_get_of_lt hs
      (a := ⟨l.indexOf A, hAl⟩) (b := ⟨l.indexOf B, hBl⟩) h
    rwa [hgA, hgB] at hr
  · intro h
    rcases Nat.lt_trichotomy (l.indexOf A) (l.indexOf B) with hlt | heq | hgt
    · exact hlt
    · exfalso
      have : A = B := by rw [← hgA, ← hgB]; exact congrArg l.get (Fin.ext heq)
      omega
    · exfalso
      have hr := List.Sorted.rel_get_of_lt hs
        (a := ⟨l.indexOf B, hBl⟩) (b := ⟨l.indexOf A, hAl⟩) hgt
      rw [hgA, hgB] at hr
      omega

/-- C3: for any two distinct watchers A and B invalidated within the same
tick — in any order, even with duplicate invalidations — the flush runs A
before B exactly when A's id is smaller. -/
theorem flush_runs_in_id_order (invals : List Nat) (A B : Nat)
    (hA : A ∈ invals) (hB : B ∈ invals) (_hAB : A ≠ B) :
    ∃ t, flushSchedulerQueue inertRun (queueMany invals emptySched).queue.length ()
        (queueMany invals emptySched) = some ((), t) ∧
      (t.runLog.indexOf A < t.runLog.indexOf B ↔ A < B) := by
  obtain ⟨hf, hn, hh, hmem, hidx, hlog⟩ := queueMany_spec invals emptySched rfl
    List.nodup_nil (by intro a; simp [emptySched])
  have hperm : List.Perm
      ((queueMany invals emptySched).queue.insertionSort (· ≤ ·))
      (queueMany invals emptySched).queue := List.perm_insertionSort _ _
  have hnodup : ((queueMany invals emptySched).queue.insertionSort (· ≤ ·)).Nodup :=
    hperm.nodup_iff.2 hn
  have hsorted : ((queueMany invals emptySched).queue.insertionSort (· ≤ ·)).Sorted
      (· < ·) :=
    List.Sorted.lt_of_le (List.sorted_insertionSort _ _) hnodup
  obtain ⟨t, hrun, hlogt, hq⟩ := flushLoop_inert
    (queueMany invals emptySched).queue.length
    (startFlush (queueMany invals emptySched))
    (by
      show ((queueMany invals emptySched).queue.insertionSort (· ≤ ·)).length -
        (queueMany invals emptySched).index ≤ _
      rw [hperm.length_eq]
      omega)
  refine ⟨resetSchedulerState t, ?_, ?_⟩
  · show (flushLoop inertRun (queueMany invals emptySched).queue.length
      ((), startFlush (queueMany invals emptySched))).map
        (fun p => (p.1, resetSchedulerState p.2)) = _
    rw [hrun]
    rfl
  · have hlog' : (resetSchedulerState t).runLog =
        (queueMany invals emptySched).queue.insertionSort (· ≤ ·) := by
      show t.runLog = _
      rw [hlogt]
      show (queueMany invals emptySched).runLog ++
        (((queueMany invals emptySched).queue.insertionSort (· ≤ ·)).drop
          (queueMany invals emptySched).index) = _
      rw [hlog, hidx]
      simp [emptySched]
    rw [hlog']
    exact sorted_indexOf_lt_iff _ hsorted A B
      (hperm.mem_iff.2 ((hmem A).2 (Or.inr hA)))
      (hperm.mem_iff.2 ((hmem B).2 (Or.inr hB)))

theorem flush_runs_in_id_order_w :
    ∃ t, flushSchedulerQueue inertRun (queueMany [3, 2] emptySched).queue.length ()
        (queueMany [3, 2] emptySched) = some ((), t) ∧
      (t.runLog.indexOf 3 < t.runLog.indexOf 2 ↔ 3 < 2) :=
  flush_runs_in_id_order [3, 2] 3 2 (by simp) (by simp) (by decide)

/-- The backward scan never goes below `index` when started at or above
it. -/
theorem scanPos_ge (q : List Nat) (idx id : Nat) :
    ∀ i, idx ≤ i → idx ≤ scanPos q idx id i := by
  intro i
  induction i with
  | zero => intro h; rw [scanPos]; exact h
  | succ i ih =>
      intro h
      rw [scanPos]
      split
      · next hcond => exact ih (by omega)
      · exact h

/-- The backward scan never goes above its start position. -/
theorem scanPos_le (q : List Nat) (idx id : Nat) :
    ∀ i, scanPos q idx id i ≤ i := by
  intro i
  induction i with
  | zero => rw [scanPos]
  | succ i ih =>
      rw [scanPos]
      split
      · exact Nat.le_trans ih (Nat.le_succ i)
      · exact Nat.le_refl _

/-- Splicing one element in grows the list by one. -/
theorem insertAt_length (l : List Nat) (n a : Nat) :
    (insertAt l n a).length = l.length + 1 := by
  show (l.take n ++ a :: l.drop n).length = _
  simp
  omega

/-- Splicing an element in is a permutation of consing it. -/
theorem insertAt_perm (l : List Nat) (n a : Nat) :
    List.Perm (insertAt l n a) (a :: l) := by
  have h : List.Perm (l.take n ++ a :: l.drop n) (a :: (l.take n ++ l.drop n)) :=
    List.perm_middle
  rwa [List.take_append_drop] at h

/-- Dropping a former part commutes with an insertion behind it. -/
theorem drop_insertAt (l : List Nat) (k n a : Nat) (hkn : k ≤ n)
    (hnl : n ≤ l.length) :
    (insertAt l n a).drop k = insertAt (l.drop k) (n - k) a := by
  have hlen : (l.take n).length = n := by
    rw [List.length_take]
    omega
  have e0 : k - (l.take n).length = 0 := by omega
  show (l.take n ++ a :: l.drop n).drop k = _
  rw [List.drop_append_eq_append_drop, e0, List.drop_zero]
  show _ = (l.drop k).take (n - k) ++ a :: (l.drop k).drop (n - k)
  rw [List.drop_take, List.drop_drop]
  have e1 : k + (n - k) = n := by omega
  rw [e1]

/-- `queueWatcher` preserves the mid-run invariant: it never duplicates an
id in the strictly-unprocessed part of the queue, and keeps `index`. -/
theorem queueWatcher_qinv (n : Nat) (t : SchedState) (h : QInv t) :
    QInv (queueWatcher n t) ∧ (queueWatcher n t).index = t.index := by
  obtain ⟨h1, h2, h3⟩ := h
  rw [queueWatcher_eq]
  by_cases hn : n ∈ t.has
  · rw [if_pos hn]
    exact ⟨⟨h1, h2, h3⟩, rfl⟩
  · rw [if_neg hn]
    have hnotin : n ∉ t.queue.drop (t.index + 1) := fun hmem => hn (h2 n hmem)
    by_cases hf : t.flushing
    · rw [if_pos hf]
      set p := scanPos t.queue t.index n (t.queue.length - 1) with hp
      have hpge : t.index ≤ p := scanPos_ge _ _ _ _ (by omega)
      have hple : p ≤ t.queue.length - 1 := scanPos_le _ _ _ _
      have hdrop : (insertAt t.queue (p + 1) n).drop (t.index + 1) =
          insertAt (t.queue.drop (t.index + 1)) (p + 1 - (t.index + 1)) n :=
        drop_insertAt _ _ _ _ (by omega) (by omega)
      have hperm : List.Perm
          (insertAt (t.queue.drop (t.index + 1)) (p + 1 - (t.index + 1)) n)
          (n :: t.queue.drop (t.index + 1)) := insertAt_perm _ _ _
      refine ⟨⟨?_, ?_, ?_⟩, rfl⟩
      · show ((insertAt t.queue (p + 1) n).drop (t.index + 1)).Nodup
        rw [hdrop]
        exact hperm.nodup_iff.2 (List.nodup_cons.2 ⟨hnotin, h1⟩)
      · intro m hm
        show m ∈ insert n t.has
        rw [show ((insertAt t.queue (p + 1) n).drop (t.index + 1)) =
          insertAt (t.queue.drop (t.index + 1)) (p + 1 - (t.index + 1)) n
          from hdrop] at hm
        rcases (List.mem_cons).1 (hperm.mem_iff.1 hm) with hmn | hmo
        · exact Finset.mem_insert.2 (Or.inl hmn)
        · exact Finset.mem_insert.2 (Or.inr (h2 m hmo))
      · show t.index < (insertAt t.queue (p + 1) n).length
        rw [insertAt_length]
        omega
    · rw [if_neg hf]
      have hdrop : (t.queue ++ [n]).drop (t.index + 1) =
          t.queue.drop (t.index + 1) ++ [n] := by
        have e0 : t.index + 1 - t.queue.length = 0 := by omega
        rw [List.drop_append_eq_append_drop, e0, List.drop_zero]
      refine ⟨⟨?_, ?_, ?_⟩, rfl⟩
      · show ((t.queue ++ [n]).drop (t.index + 1)).Nodup
        rw [hdrop, List.nodup_append]
        refine ⟨h1, List.nodup_singleton n, ?_⟩
        intro a ha hax
        rw [List.mem_singleton] at hax
        exact hn (hax ▸ h2 a ha)
      · intro m hm
        show m ∈ insert n t.has
        rw [hdrop] at hm
        rcases (List.mem_append).1 hm with hmo | hmn
        · exact Finset.mem_insert.2 (Or.inr (h2 m hmo))
        · exact Finset.mem_insert.2 (Or.inl ((List.mem_singleton).1 hmn))
      · show t.index < (t.queue ++ [n]).length
        rw [List.length_append, List.length_singleton]
        omega

/-- One iteration of the flush loop preserves the boundary invariant: after
dequeuing the current entry, running it and queueing whatever it notified,
the not-yet-processed part of the queue is still duplicate-free and still
marked in `has`. -/
theorem stepFlush_pending {σ : Type} (run : Nat → σ → σ × List Nat)
    (d : σ) (s : SchedState) (h : PendingInv s)
    (hlen : s.index < s.queue.length) :
    PendingInv (stepFlush run (d, s)).2 := by
  obtain ⟨h1, h2⟩ := h
  have hcons : s.queue.drop s.index =
      s.queue.getD s.index 0 :: s.queue.drop (s.index + 1) := by
    rw [List.getD_eq_getElem s.queue 0 hlen]
    exact List.drop_eq_getElem_cons hlen
  rw [hcons] at h1 h2
  have hid_not : s.queue.getD s.index 0 ∉ s.queue.drop (s.index + 1) :=
    (List.nodup_cons.1 h1).1
  have h1' := (List.nodup_cons.1 h1).2
  have hq1 : QInv
      { s with has := s.has.erase (s.queue.getD s.index 0),
               runLog := s.runLog ++ [s.queue.getD s.index 0] } := by
    refine ⟨h1', ?_, hlen⟩
    intro m hm
    refine Finset.mem_erase.2 ⟨?_, h2 m (List.mem_cons_of_mem _ hm)⟩
    intro he
    exact hid_not (he ▸ hm)
  have hfold : ∀ (ns : List Nat) (t : SchedState), QInv t →
      QInv (ns.foldl (fun st m => queueWatcher m st) t) ∧
      (ns.foldl (fun st m => queueWatcher m st) t).index = t.index := by
    intro ns
    induction ns with
    | nil => intro t ht; exact ⟨ht, rfl⟩
    | cons m rest ih =>
        intro t ht
        obtain ⟨ht1, hti⟩ := queueWatcher_qinv m t ht
        obtain ⟨hr1, hri⟩ := ih (queueWatcher m t) ht1
        refine ⟨hr1, ?_⟩
        show (rest.foldl (fun st m => queueWatcher m st) (queueWatcher m t)).index
          = t.index
        rw [hri, hti]
  rcases hrun : run (s.queue.getD s.index 0) d with ⟨d2, ns⟩
  obtain ⟨⟨g1, g2, g3⟩, gi⟩ := hfold ns
    { s with has := s.has.erase (s.queue.getD s.index 0),
             runLog := s.runLog ++ [s.queue.getD s.index 0] } hq1
  have hres : (stepFlush run (d, s)).2 =
      { (ns.foldl (fun st m => queueWatcher m st)
          { s with has := s.has.erase (s.queue.getD s.index 0),
                   runLog := s.runLog ++ [s.queue.getD s.index 0] }) with
        index := (ns.foldl (fun st m => queueWatcher m st)
          { s with has := s.has.erase (s.queue.getD s.index 0),
                   runLog := s.runLog ++ [s.queue.getD s.index 0] }).index + 1 } := by
    simp only [stepFlush, hrun]
  rw [hres]
  exact ⟨g1, g2⟩

/-- Any number of flush-loop iterations preserves the boundary invariant. -/
theorem flushIter_pending {σ : Type} (run : Nat → σ → σ × List Nat) (n : Nat) :
    ∀ (st : σ × SchedState), PendingInv st.2 →
      PendingInv (flushIter run n st).2 := by
  induction n with
  | zero => intro st h; exact h
  | succ n ih =>
      intro st h
      by_cases hc : st.2.index < st.2.queue.length
      · rw [flushIter, if_pos hc]
        exact ih _ (stepFlush_pending run st.1 st.2 h hc)
      · rw [flushIter, if_neg hc]
        exact h

/-- C4 counterexample: watchers 1 and 2 are invalidated in one tick; during
the flush, watcher 2's run mutates a member watcher 1 subscribes to, so
watcher 1 — already processed, marker cleared — is re-queued: after two loop
iterations the pending queue array is `[1, 2, 1]`, holding id 1 twice while
the flush cycle is still running. -/
theorem pending_duplicate_counterexample :
    (flushIter retriggerRun 2 ((), c4Start)).2.queue = [1, 2, 1] ∧
    (flushIter retriggerRun 2 ((), c4Start)).2.queue.count 1 = 2 ∧
    (flushIter retriggerRun 2 ((), c4Start)).2.index <
      (flushIter retriggerRun 2 ((), c4Start)).2.queue.length := by
  refine ⟨by decide, by decide, by decide⟩

/-- C4 amended: during a flush, no watcher id appears twice among the
not-yet-processed entries of the queue (positions from the loop index on) —
for every machine, every burst of same-tick invalidations and every number
of loop iterations; and the queue built within one tick before the flush is
itself duplicate-free.  (The full queue array may hold a second occurrence
of an already-processed id when that watcher is re-queued mid-flush.) -/
theorem pending_queue_nodup {σ : Type} (run : Nat → σ → σ × List Nat) (d : σ)
    (invals : List Nat) (n : Nat) :
    (queueMany invals emptySched).queue.Nodup ∧
    ((flushIter run n (d, startFlush (queueMany invals emptySched))).2.queue.drop
      (flushIter run n (d, startFlush (queueMany invals emptySched))).2.index).Nodup := by
  obtain ⟨hf, hn, hh, hmem, hidx, hlog⟩ := queueMany_spec invals emptySched rfl
    List.nodup_nil (by intro a; simp [emptySched])
  have hperm : List.Perm
      ((queueMany invals emptySched).queue.insertionSort (· ≤ ·))
      (queueMany invals emptySched).queue := List.perm_insertionSort _ _
  have hstart : PendingInv (startFlush (queueMany invals emptySched)) := by
    constructor
    · show ((((queueMany invals emptySched).queue.insertionSort (· ≤ ·))).drop
        (queueMany invals emptySched).index).Nodup
      exact (List.drop_sublist _ _).nodup (hperm.nodup_iff.2 hn)
    · intro m hm
      show m ∈ (queueMany invals emptySched).has
      exact (hh m).1 (hperm.mem_iff.1 (List.mem_of_mem_drop hm))
  exact ⟨hn,
    (flushIter_pending run n (d, startFlush (queueMany invals emptySched)) hstart).1⟩

/-- One iteration of the flush loop on the self-re-triggering scenario: the
watcher at the head of the unprocessed queue runs, clears its marker,
notifies itself, and is re-spliced right behind the current position — the
queue grows by one and the loop index advances by one. -/
theorem selfState_step (n : Nat) :
    stepFlush selfRun ((), selfState n) = ((), selfState (n + 1)) := by
  have hid : (List.replicate (n + 1) (1:Nat)).getD n 0 = 1 := by
    rw [List.getD_eq_getElem _ _ (by simp)]
    simp
  have hscan : scanPos (List.replicate (n + 1) 1) n 1
      ((List.replicate (n + 1) (1:Nat)).length - 1) = n := by
    have hl : (List.replicate (n + 1) (1:Nat)).length - 1 = n := by simp
    rw [hl]
    cases n with
    | zero => rw [scanPos]
    | succ m =>
        rw [scanPos, if_neg]
        intro hcond
        exact absurd hcond.1 (lt_irrefl _)
  have hins : insertAt (List.replicate (n + 1) 1) (n + 1) 1 =
      List.replicate (n + 2) 1 := by
    show (List.replicate (n + 1) (1:Nat)).take (n + 1) ++
      1 :: (List.replicate (n + 1) (1:Nat)).drop (n + 1) = _
    rw [List.take_of_length_le (by simp), List.drop_eq_nil_of_le (by simp)]
    exact (List.replicate_succ' (n + 1) 1).symm
  have herase : ({1} : Finset Nat).erase 1 = ∅ := Finset.erase_singleton 1
  have hrl : List.replicate n (1:Nat) ++ [1] = List.replicate (n + 1) 1 :=
    (List.replicate_succ' n 1).symm
  simp only [stepFlush, selfState, selfRun, hid, herase, hrl,
    List.foldl_cons, List.foldl_nil]
  rw [queueWatcher_eq]
  simp only [Finset.not_mem_empty, if_false, hscan, hins]
  simp

/-- In the self-re-triggering scenario the flush loop's condition
`index < queue.length` holds at every iteration, so no amount of fuel
completes the flush. -/
theorem selfLoop_none (fuel : Nat) :
    ∀ n, flushLoop selfRun fuel ((), selfState n) = none := by
  induction fuel with
  | zero =>
      intro n
      rw [flushLoop, if_pos]
      simp [selfState]
  | succ fuel ih =>
      intro n
      rw [flushLoop, if_pos (by simp [selfState]), selfState_step]
      exact ih (n + 1)

/-- Iterating the flush loop on the self-re-triggering scenario runs the
watcher once per iteration, forever. -/
theorem selfIter (k : Nat) :
    ∀ n, flushIter selfRun k ((), selfState n) = ((), selfState (n + k)) := by
  induction k with
  | zero => intro n; rfl
  | succ k ih =>
      intro n
      rw [flushIter, if_pos (by simp [selfState]), selfState_step, ih (n + 1)]
      have : n + 1 + k = n + (k + 1) := by omega
      rw [this]

/-- The state at the start of the flush of the self-re-triggering scenario:
one watcher, queued once, queue sorted, `flushing` set. -/
theorem startFlush_self : startFlush (queueWatcher 1 emptySched) = selfState 0 := by
  rw [queueWatcher_eq]
  simp [emptySched, startFlush, selfState]

/-- C1 (against the code as written): `flushSchedulerQueue` contains no
circular-update counter — `MAX_UPDATE_COUNT` and the `circular` object are
declared but never consulted — so a single watcher whose run re-invalidates
its own dependency is re-queued and re-run forever: no fuel completes the
flush, and after `MAX_UPDATE_COUNT + 50` loop iterations the watcher has
already run `MAX_UPDATE_COUNT + 50 > 100` times with the loop condition
still true. -/
theorem circular_update_not_bounded :
    (∀ fuel, flushSchedulerQueue selfRun fuel () (queueWatcher 1 emptySched) = none) ∧
    (flushIter selfRun (MAX_UPDATE_COUNT + 50)
      ((), startFlush (queueWatcher 1 emptySched))).2.runLog =
      List.replicate (MAX_UPDATE_COUNT + 50) 1 ∧
    (flushIter selfRun (MAX_UPDATE_COUNT + 50)
      ((), startFlush (queueWatcher 1 emptySched))).2.index <
      (flushIter selfRun (MAX_UPDATE_COUNT + 50)
        ((), startFlush (queueWatcher 1 emptySched))).2.queue.length := by
  have hunfold : ∀ fuel,
      flushSchedulerQueue selfRun fuel () (queueWatcher 1 emptySched) =
      (flushLoop selfRun fuel ((), startFlush (queueWatcher 1 emptySched))).map
        (fun p => (p.1, resetSchedulerState p.2)) := fun _ => rfl
  refine ⟨fun fuel => ?_, ?_, ?_⟩
  · rw [hunfold, startFlush_self, selfLoop_none]
    rfl
  · rw [startFlush_self, selfIter]
    simp [selfState]
  · rw [startFlush_self, selfIter]
    simp [selfState]
